import Mathlib

set_option maxHeartbeats 1000000
set_option maxRecDepth 16000

namespace PlogicBO

/-!
Verification development for the simulation-evaluation orchestrator
(`mcp_agent/tools/plogic_bo.py`): argument sanitizer, cache key digest,
LRU+TTL cache and the `physics_cache` wrapper, cascade error taxonomy,
objective formula, async/sync bridge bookkeeping (trace ring buffer,
best-point tracking) and the parallel sweep partition.

Numbers that the Python code handles as floats are modelled as rationals
(`ℚ`), with `float("inf")` as `⊤` in `WithTop ℚ`; wall-clock times are `ℚ`
seconds; machine-word arithmetic inside the hash is `Nat` reduced mod `2^64`.
Raising an exception is modelled as returning `Except.error`.
-/

/-! ### Argument sanitizer

Source: `ALLOWED_EXTRA_PATTERN = re.compile(r"^--[a-z][a-z0-9-]*(?:=[\w.\-+eE]+)?$", re.I)`
and `_validate_extra`.  In CPython's str-mode semantics, `re.I` matches the
`[a-z]`/`[a-z0-9-]` classes with Unicode case folding (besides `A`–`Z` they
also accept the folds `ſ` U+017F and `K` U+212A), `\w` is the Unicode word
characters (alphanumerics of any script, plus the underscore), and the `$`
anchor also matches just before a single trailing newline at the end of the
string.  The character classes below embed the ASCII fragment of those
classes; on ASCII strings they agree exactly with the compiled pattern
(ASCII case folding is plain `A`–`Z` ↔ `a`–`z`, and the ASCII part of `\w`
is letters, digits and underscore), so the sanitizer theorems about the full
pattern are scoped to ASCII inputs. -/

/-- ASCII fragment of `[a-z]` under `re.I`. -/
def isFlagStartChar (c : Char) : Bool := c.isAlpha

/-- ASCII fragment of `[a-z0-9-]` under `re.I`. -/
def isFlagNameChar (c : Char) : Bool := c.isAlpha || c.isDigit || c == '-'

/-- ASCII fragment of `[\w.\-+eE]` (`e`/`E` are already word characters). -/
def isFlagValueChar (c : Char) : Bool :=
  c.isAlpha || c.isDigit || c == '_' || c == '.' || c == '-' || c == '+'

def isAsciiChar (c : Char) : Bool := c.toNat < 128

def isAsciiString (s : String) : Bool := s.data.all isAsciiChar

/-- Position where `$` may match: end of string, or before one trailing newline. -/
def atLineEnd (cs : List Char) : Bool :=
  match cs with
  | [] => true
  | ['\n'] => true
  | _ => false

/-- Having consumed `--` and the leading letter, match `[a-z0-9-]*(?:=[\w.\-+eE]+)?$`
(with `re.I`).  The character classes are disjoint from `=` and `\n`, so the
greedy scan is the unique possible match. -/
def matchAfterName (cs : List Char) : Bool :=
  match cs.dropWhile isFlagNameChar with
  | '=' :: vs =>
      !(vs.takeWhile isFlagValueChar).isEmpty && atLineEnd (vs.dropWhile isFlagValueChar)
  | rest => atLineEnd rest

/-- `ALLOWED_EXTRA_PATTERN.match s` as a Bool; exact for ASCII `s` (for
non-ASCII input the compiled pattern additionally accepts Unicode word
characters in the value and the case-folds `ſ`/`K` in the name, which this
ASCII-fragment recognizer rejects). -/
def allowedExtraMatch (s : String) : Bool :=
  match s.data with
  | '-' :: '-' :: c :: cs => isFlagStartChar c && matchAfterName cs
  | _ => false

/-- `_validate_extra`: keep the args the pattern accepts, in order; drop the
rest (a warning is logged, no error is raised). -/
def validate_extra : List String → List String
  | [] => []
  | a :: rest =>
      if allowedExtraMatch a then a :: validate_extra rest else validate_extra rest

/-! The spec's claimed pattern (claim C5 wording): a leading `--`, a
*lowercase*-letter-led flag name of lowercase letters/digits/hyphens,
optionally `=value` with value of alphanumerics and `.` `-` `+` `e` `E`,
matched to the exact end of the string.  This is the pattern the claim
asserts; it is compared against the code's matcher above. -/

def claimFlagStartChar (c : Char) : Bool := c.isLower

def claimFlagNameChar (c : Char) : Bool := c.isLower || c.isDigit || c == '-'

def claimFlagValueChar (c : Char) : Bool :=
  c.isAlpha || c.isDigit || c == '.' || c == '-' || c == '+'

def claimMatchAfterName (cs : List Char) : Bool :=
  match cs.dropWhile claimFlagNameChar with
  | '=' :: vs =>
      !(vs.takeWhile claimFlagValueChar).isEmpty && (vs.dropWhile claimFlagValueChar).isEmpty
  | rest => rest.isEmpty

def claimExtraMatch (s : String) : Bool :=
  match s.data with
  | '-' :: '-' :: c :: cs => claimFlagStartChar c && claimMatchAfterName cs
  | _ => false

/-! ### Cache key digest

Source: `_digest` (dict branch):
`json.dumps(obj, sort_keys=True, separators=(",", ":"))` then
`hashlib.blake2b(key_str.encode(), digest_size=16).hexdigest()`.

JSON values occurring in the `interesting` dict: None, bools, numbers,
strings, lists of the former.  Numbers are carried as the decimal literal
`json.dumps` renders for them (the rendering of a Python float is a pure
function of its value). -/

inductive JAtom : Type
  | anull : JAtom
  | abool : Bool → JAtom
  | anum : String → JAtom
  | astr : String → JAtom
deriving DecidableEq

/-- JSON values as they occur in the cached-call parameter dicts: scalars and
flat arrays of scalars (the `extra` flag list, the `ctrl` power list). -/
inductive JValue : Type
  | jatom : JAtom → JValue
  | jarr : List JAtom → JValue
deriving DecidableEq

def hexDigitChar (n : Nat) : Char :=
  if n < 10 then Char.ofNat (48 + n) else Char.ofNat (87 + n)

/-- A `\uXXXX` escape (lowercase hex), as emitted by `json.dumps`. -/
def u16Escape (n : Nat) : List Char :=
  ['\\', 'u', hexDigitChar (n / 4096 % 16), hexDigitChar (n / 256 % 16),
   hexDigitChar (n / 16 % 16), hexDigitChar (n % 16)]

/-- `json.dumps` string escaping with the default `ensure_ascii=True`:
printable ASCII other than quote and backslash is literal, the short escapes
are used for the usual controls, everything else becomes `\uXXXX`
(surrogate pairs above the BMP). -/
def escapeJsonChar (c : Char) : List Char :=
  if c = '"' then ['\\', '"']
  else if c = '\\' then ['\\', '\\']
  else if c = '\n' then ['\\', 'n']
  else if c = '\t' then ['\\', 't']
  else if c = '\r' then ['\\', 'r']
  else if c.toNat = 8 then ['\\', 'b']
  else if c.toNat = 12 then ['\\', 'f']
  else if 32 ≤ c.toNat ∧ c.toNat ≤ 126 then [c]
  else if c.toNat < 65536 then u16Escape c.toNat
  else u16Escape (55296 + (c.toNat - 65536) / 1024) ++ u16Escape (56320 + (c.toNat - 65536) % 1024)

def escapeChars : List Char → List Char
  | [] => []
  | c :: cs => escapeJsonChar c ++ escapeChars cs

def jsonQuote (s : String) : String :=
  ⟨'"' :: (escapeChars s.data ++ ['"'])⟩

def serJAtom : JAtom → String
  | .anull => "null"
  | .abool true => "true"
  | .abool false => "false"
  | .anum lit => lit
  | .astr s => jsonQuote s

def serJList : List JAtom → String
  | [] => ""
  | [x] => serJAtom x
  | x :: y :: rest => serJAtom x ++ "," ++ serJList (y :: rest)

def serJValue : JValue → String
  | .jatom a => serJAtom a
  | .jarr l => "[" ++ serJList l ++ "]"

/-- `sort_keys=True` orders the items by key (code-point string order). -/
def keyLe (a b : String × JValue) : Prop := a.1 ≤ b.1

instance : DecidableRel keyLe := fun a b => inferInstanceAs (Decidable (a.1 ≤ b.1))

instance : IsTotal (String × JValue) keyLe := ⟨fun a b => le_total a.1 b.1⟩

instance : IsTrans (String × JValue) keyLe := ⟨fun _ _ _ h1 h2 => le_trans h1 h2⟩

def keyLt (a b : String × JValue) : Prop := a.1 < b.1

instance : IsAntisymm (String × JValue) keyLt :=
  ⟨fun _ _ h1 h2 => absurd (lt_trans h1 h2) (lt_irrefl _)⟩

def sortKeyed (m : List (String × JValue)) : List (String × JValue) :=
  List.insertionSort keyLe m

/-- `json.dumps(obj, sort_keys=True, separators=(",", ":"))` on a dict. -/
def jsonDumpsSortKeys (m : List (String × JValue)) : String :=
  "\x7b" ++ String.intercalate ","
      ((sortKeyed m).map fun kv => jsonQuote kv.1 ++ ":" ++ serJValue kv.2) ++ "\x7d"

/-- UTF-8 encoding of one code point (`str.encode`). -/
def charUtf8 (c : Char) : List Nat :=
  let n := c.toNat
  if n < 128 then [n]
  else if n < 2048 then [192 + n / 64, 128 + n % 64]
  else if n < 65536 then [224 + n / 4096, 128 + n / 64 % 64, 128 + n % 64]
  else [240 + n / 262144, 128 + n / 4096 % 64, 128 + n / 64 % 64, 128 + n % 64]

def strBytesList : List Char → List Nat
  | [] => []
  | c :: cs => charUtf8 c ++ strBytesList cs

def strBytes (s : String) : List Nat := strBytesList s.data

/-! BLAKE2b (RFC 7693), sequential, unkeyed, `digest_size=16` — the function
`hashlib.blake2b(data, digest_size=16)` computes.  64-bit words are `Nat`
reduced mod `2^64` where overflow matters. -/

def W64 : Nat := 2 ^ 64

def rotr64 (x n : Nat) : Nat := (x >>> n) ||| ((x <<< (64 - n)) % W64)

def blakeIV : List Nat :=
  [0x6a09e667f3bcc908, 0xbb67ae8584caa73b, 0x3c6ef372fe94f82b, 0xa54ff53a5f1d36f1,
   0x510e527fade682d1, 0x9b05688c2b3e6c1f, 0x1f83d9abfb41bd6b, 0x5be0cd19137e2179]

def blakeSigma (r : Nat) : List Nat :=
  match r with
  | 0 => [0, 1, 2, 3, 4, 5, 6, 7, 8, 9, 10, 11, 12, 13, 14, 15]
  | 1 => [14, 10, 4, 8, 9, 15, 13, 6, 1, 12, 0, 2, 11, 7, 5, 3]
  | 2 => [11, 8, 12, 0, 5, 2, 15, 13, 10, 14, 3, 6, 7, 1, 9, 4]
  | 3 => [7, 9, 3, 1, 13, 12, 11, 14, 2, 6, 5, 10, 4, 0, 15, 8]
  | 4 => [9, 0, 5, 7, 2, 4, 10, 15, 14, 1, 11, 12, 6, 8, 3, 13]
  | 5 => [2, 12, 6, 10, 0, 11, 8, 3, 4, 13, 7, 5, 15, 14, 1, 9]
  | 6 => [12, 5, 1, 15, 14, 13, 4, 10, 0, 7, 6, 3, 9, 2, 8, 11]
  | 7 => [13, 11, 7, 14, 12, 1, 3, 9, 5, 0, 15, 4, 8, 6, 2, 10]
  | 8 => [6, 15, 14, 9, 11, 3, 0, 8, 12, 2, 13, 7, 1, 4, 10, 5]
  | _ => [10, 2, 8, 4, 7, 6, 1, 5, 15, 11, 9, 14, 3, 12, 13, 0]

def gMix (v : List Nat) (a b c d x y : Nat) : List Nat :=
  let va := (v.getD a 0 + v.getD b 0 + x) % W64
  let vd := rotr64 ((v.getD d 0) ^^^ va) 32
  let vc := (v.getD c 0 + vd) % W64
  let vb := rotr64 ((v.getD b 0) ^^^ vc) 24
  let va2 := (va + vb + y) % W64
  let vd2 := rotr64 (vd ^^^ va2) 16
  let vc2 := (vc + vd2) % W64
  let vb2 := rotr64 (vb ^^^ vc2) 63
  (((v.set a va2).set b vb2).set c vc2).set d vd2

def blakeRound (m : List Nat) (v : List Nat) (r : Nat) : List Nat :=
  let s := blakeSigma (r % 10)
  let mi := fun i => m.getD (s.getD i 0) 0
  let v1 := gMix v 0 4 8 12 (mi 0) (mi 1)
  let v2 := gMix v1 1 5 9 13 (mi 2) (mi 3)
  let v3 := gMix v2 2 6 10 14 (mi 4) (mi 5)
  let v4 := gMix v3 3 7 11 15 (mi 6) (mi 7)
  let v5 := gMix v4 0 5 10 15 (mi 8) (mi 9)
  let v6 := gMix v5 1 6 11 12 (mi 10) (mi 11)
  let v7 := gMix v6 2 7 8 13 (mi 12) (mi 13)
  gMix v7 3 4 9 14 (mi 14) (mi 15)

/-- Little-endian value of a byte list (missing bytes read as the zero pad). -/
def le64 (bytes : List Nat) : Nat := bytes.foldr (fun b acc => b + 256 * acc) 0

def blockWords (block : List Nat) : List Nat :=
  (List.range 16).map fun i => le64 ((block.drop (8 * i)).take 8)

def blakeCompress (h : List Nat) (block : List Nat) (t : Nat) (last : Bool) : List Nat :=
  let m := blockWords block
  let v0 := (List.range 8).map (fun i => h.getD i 0) ++ blakeIV
  let v1 := v0.set 12 ((v0.getD 12 0) ^^^ (t % W64))
  let v2 := v1.set 13 ((v1.getD 13 0) ^^^ (t / W64 % W64))
  let v3 := if last then v2.set 14 ((v2.getD 14 0) ^^^ (W64 - 1)) else v2
  let vf := (List.range 12).foldl (blakeRound m) v3
  (List.range 8).map fun i => (h.getD i 0) ^^^ ((vf.getD i 0) ^^^ (vf.getD (i + 8) 0))

/-- Process the message in 128-byte blocks; the final (≤ 128 byte) block is
zero-padded via `le64` and compressed with the total byte count and the
final flag. -/
def blakeGo (h : List Nat) (t : Nat) (rem : List Nat) : List Nat :=
  if hr : rem.length ≤ 128 then blakeCompress h rem (t + rem.length) true
  else blakeGo (blakeCompress h (rem.take 128) (t + 128) false) (t + 128) (rem.drop 128)
termination_by rem.length
decreasing_by simp only [List.length_drop]; omega

/-- Initial state for unkeyed BLAKE2b with `digest_size = 16`:
`h0 = IV0 xor 0x01010010` (depth 1, fanout 1, key length 0, digest length 16). -/
def blake2bInitH : List Nat := blakeIV.set 0 ((blakeIV.getD 0 0) ^^^ 0x01010010)

def leBytes8 (w : Nat) : List Nat := (List.range 8).map fun j => w / 256 ^ j % 256

def wordsBytes : List Nat → List Nat
  | [] => []
  | w :: ws => leBytes8 w ++ wordsBytes ws

def blake2b128Bytes (msg : List Nat) : List Nat :=
  (wordsBytes (blakeGo blake2bInitH 0 msg)).take 16

def byteHex (b : Nat) : List Char := [hexDigitChar (b / 16 % 16), hexDigitChar (b % 16)]

def bytesHexChars : List Nat → List Char
  | [] => []
  | b :: bs => byteHex b ++ bytesHexChars bs

def hexOfBytes (bs : List Nat) : String := ⟨bytesHexChars bs⟩

/-- `_digest` on a dict: canonical sorted-key JSON, UTF-8 encoded, BLAKE2b
with a 16-byte digest, rendered as lowercase hex. -/
def digestDict (m : List (String × JValue)) : String :=
  hexOfBytes (blake2b128Bytes (strBytes (jsonDumpsSortKeys m)))

/-! ### LRU + TTL cache (`_LRUTTL`) and the `physics_cache` decorator

`_LRUTTL` wraps an `OrderedDict` keyed by strings holding `(expiry, value)`
pairs, oldest entry first; `move_to_end` re-appends an entry, and
`popitem(last=False)` evicts the oldest.  The `physics_cache` wrapper is
modelled on its in-process branch (`_redis()` unavailable); the cached value
is stored as the returned object itself.  A present cached value is returned
as a hit (cascade results are non-empty dicts, hence truthy in the
`if hit:` test). -/

structure LRUTTL (V : Type) where
  store : List (String × ℚ × V)
  maxItems : Nat

def lruEmpty (V : Type) : LRUTTL V := ⟨[], 1024⟩

/-- `_LRUTTL.get`: miss on absent key; an entry past its expiry is popped and
is a miss; a live entry is moved to the end (most recently used) and hit. -/
def lruGet {V : Type} (c : LRUTTL V) (key : String) (now : ℚ) : Option V × LRUTTL V :=
  match c.store.find? (fun e => e.1 == key) with
  | none => (none, c)
  | some e =>
      if e.2.1 < now then
        (none, ⟨c.store.eraseP (fun x => x.1 == key), c.maxItems⟩)
      else
        (some e.2.2, ⟨c.store.eraseP (fun x => x.1 == key) ++ [(key, e.2.1, e.2.2)], c.maxItems⟩)

/-- `_LRUTTL.setex`: (re-)insert at the most-recent end with expiry
`now + ttl`, then evict from the oldest end while over capacity. -/
def lruSetex {V : Type} (c : LRUTTL V) (key : String) (ttl : ℚ) (v : V) (now : ℚ) : LRUTTL V :=
  let s1 := c.store.eraseP (fun x => x.1 == key) ++ [(key, now + ttl, v)]
  let s2 := if s1.length > c.maxItems then s1.drop (s1.length - c.maxItems) else s1
  ⟨s2, c.maxItems⟩

/-- The fixed list of keyword names whose values participate in the cache
identity (`interesting`). -/
def cacheKeyFields : List String :=
  ["threshold", "beta", "xpm_mode", "n2", "a_eff", "n_eff", "g_geom", "ctrl", "extra"]

/-- `kwargs.get(k)`: `None` when the keyword was not passed. -/
def kwargsGet (kwargs : List (String × JValue)) (k : String) : JValue :=
  (kwargs.lookup k).getD (JValue.jatom .anull)

/-- The `interesting` dict: the nine named keyword values plus the wrapped
function's name under `"__op__"`.  Positional arguments never enter it. -/
def interestingDict (fnName : String) (kwargs : List (String × JValue)) : List (String × JValue) :=
  (cacheKeyFields.map fun k => (k, kwargsGet kwargs k)) ++ [("__op__", JValue.jatom (.astr fnName))]

def cacheKeyOf (fnName : String) (kwargs : List (String × JValue)) : String :=
  "plogic:" ++ digestDict (interestingDict fnName kwargs)

/-- One call of the `physics_cache`-wrapped function: derive the key from the
keyword arguments only, serve a live cached value, otherwise evaluate the
wrapped function on all its arguments and cache the result. -/
def physicsCacheCall {V : Type} (fn : List JValue → List (String × JValue) → V) (fnName : String)
    (expireSeconds : ℚ) (args : List JValue) (kwargs : List (String × JValue))
    (c : LRUTTL V) (now : ℚ) : V × LRUTTL V :=
  let key := cacheKeyOf fnName kwargs
  match lruGet c key now with
  | (some hit, c1) => (hit, c1)
  | (none, c1) =>
      let out := fn args kwargs
      (out, lruSetex c1 key expireSeconds out now)

/-! ### `plogic_cascade` error taxonomy

The cascade body runs the CLI; its observable outcome for the error-path
analysis is either a deadline overrun of `asyncio.wait_for` (CASCADE_TIMEOUT)
or a completed process with an exit code and captured output.  Python raises
`RuntimeError` in both failure cases; errors are modelled as
(exception type name, message).  The success value carries stdout; the
downstream metric extraction is modelled separately with the objective. -/

def metricsGetD (m : List (String × ℚ)) (k : String) (d : ℚ) : ℚ :=
  (m.lookup k).getD d

structure CascadeRes where
  metrics : List (String × ℚ)
deriving DecidableEq

def objective_of (metrics : List (String × ℚ)) (fixed : List (String × ℚ)) : ℚ :=
  let ber := metricsGetD metrics "ber_estimate" 1
  let margin := metricsGetD metrics "logic_margin" 0
  let alpha := metricsGetD fixed "objective_margin_weight" (1 / 10)
  ber - alpha * margin

/-- `_objective_eval` (post-evaluation part): the scalar objective paired
with the evaluation result it was computed from. -/
def objective_eval (res : CascadeRes) (fixed : List (String × ℚ)) : ℚ × CascadeRes :=
  (objective_of res.metrics fixed, res)

/-! ### Async/Sync bridge and optimization bookkeeping

`_make_sync_objective`'s closure `_sync_obj` and the fallback strategy's
`sample_once` both: obtain `(objective, result)` from `_objective_eval`, or
on any exception (including the `OBJ_TIMEOUT` deadline of `fut.result` resp.
`asyncio.wait_for`) substitute `float("inf")` and an error dict; append an
EvaluationRecord; trim the trace to its most recent 400 records once its
length exceeds 500; and replace `best` under a strict `<`.

The evaluation outcome that the bridge observes is the input of the step
function: `Except.error` is a raised exception carrying `str(e)` (for
`sample_once`, also the formatted traceback). -/

inductive ResVal : Type
  | ok : List (String × ℚ) → ResVal
  | errSync : String → List (String × ℚ) → ResVal
  | errSample : String → List (String × ℚ) → String → ResVal
deriving DecidableEq

/-- `result.get("metrics", {})`: the error dicts have no `"metrics"` key. -/
def resValMetrics : ResVal → List (String × ℚ)
  | .ok m => m
  | .errSync _ _ => []
  | .errSample _ _ _ => []

structure EvalRecord where
  params : List (String × ℚ)
  objective : WithTop ℚ
  metrics : List (String × ℚ)
  result : ResVal
deriving DecidableEq

structure BestPoint where
  objective : WithTop ℚ
  params : Option (List (String × ℚ))
  result : Option ResVal
deriving DecidableEq

structure BOState where
  trace : List EvalRecord
  best : BestPoint
deriving DecidableEq

/-- `trace = []`, `best = {"objective": float("inf"), "params": None, "result": None}`. -/
def boInit : BOState := ⟨[], ⟨⊤, none, none⟩⟩

abbrev SyncOutcome : Type := Except String (ℚ × List (String × ℚ))

abbrev SampleOutcome : Type := Except (String × String) (ℚ × List (String × ℚ))

def syncObjectiveOf (o : SyncOutcome) : WithTop ℚ :=
  match o with
  | .ok x => (x.1 : WithTop ℚ)
  | .error _ => ⊤

def syncResultOf (o : SyncOutcome) (params : List (String × ℚ)) : ResVal :=
  match o with
  | .ok x => .ok x.2
  | .error e => .errSync e params

def sampleObjectiveOf (o : SampleOutcome) : WithTop ℚ :=
  match o with
  | .ok x => (x.1 : WithTop ℚ)
  | .error _ => ⊤

def sampleResultOf (o : SampleOutcome) (params : List (String × ℚ)) : ResVal :=
  match o with
  | .ok x => .ok x.2
  | .error e => .errSample e.1 params e.2

def syncRecordOf (o : SyncOutcome) (params : List (String × ℚ)) : EvalRecord :=
  ⟨params, syncObjectiveOf o, resValMetrics (syncResultOf o params), syncResultOf o params⟩

def sampleRecordOf (o : SampleOutcome) (params : List (String × ℚ)) : EvalRecord :=
  ⟨params, sampleObjectiveOf o, resValMetrics (sampleResultOf o params), sampleResultOf o params⟩

/-- One call of `_sync_obj`: returns the objective handed to the optimizer
and the mutated `(trace, best)` state. -/
def sync_obj_step (st : BOState) (o : SyncOutcome) (params : List (String × ℚ)) :
    WithTop ℚ × BOState :=
  let objective := syncObjectiveOf o
  let result := syncResultOf o params
  let t1 := st.trace ++ [⟨params, objective, resValMetrics result, result⟩]
  let t2 := if t1.length > 500 then t1.drop (t1.length - 400) else t1
  let b := if objective < st.best.objective
           then ⟨objective, some params, some result⟩ else st.best
  (objective, ⟨t2, b⟩)

/-- One call of `sample_once` (state part; the coroutine returns `None`). -/
def sample_once_step (st : BOState) (o : SampleOutcome) (params : List (String × ℚ)) :
    BOState :=
  let objective := sampleObjectiveOf o
  let result := sampleResultOf o params
  let t1 := st.trace ++ [⟨params, objective, resValMetrics result, result⟩]
  let t2 := if t1.length > 500 then t1.drop (t1.length - 400) else t1
  let b := if objective < st.best.objective
           then ⟨objective, some params, some result⟩ else st.best
  ⟨t2, b⟩

/-- The bridge-driven run: the sequence of evaluation outcomes observed by
successive `_sync_obj` calls, folded from the fresh state. -/
def syncRun (inputs : List (SyncOutcome × List (String × ℚ))) : BOState :=
  inputs.foldl (fun st i => (sync_obj_step st i.1 i.2).2) boInit

/-- The fallback random-search run: `sample_once` completions in order. -/
def sampleRun (inputs : List (SampleOutcome × List (String × ℚ))) : BOState :=
  inputs.foldl (fun st i => sample_once_step st i.1 i.2) boInit

def bestObjAtSync (inputs : List (SyncOutcome × List (String × ℚ))) (k : Nat) : WithTop ℚ :=
  (syncRun (inputs.take k)).best.objective

def bestObjAtSample (inputs : List (SampleOutcome × List (String × ℚ))) (k : Nat) : WithTop ℚ :=
  (sampleRun (inputs.take k)).best.objective

/-- `plogic_bo_run`'s returned payload (the fields the claims are about):
`"best": best`, `"trace_count": len(trace)`, `"trace": trace[-200:]`. -/
structure BOPayload where
  best : BestPoint
  trace_count : Nat
  trace : List EvalRecord
deriving DecidableEq

def plogic_bo_run_payload (inputs : List (SampleOutcome × List (String × ℚ))) : BOPayload :=
  let fin := sampleRun inputs
  ⟨fin.best, fin.trace.length, fin.trace.drop (fin.trace.length - 200)⟩

/-- Length recurrence of the append-then-trim trace update, iterated. -/
def traceLenIter : Nat → Nat → Nat
  | 0, m => m
  | n + 1, m => traceLenIter n (if m + 1 > 500 then 400 else m + 1)

/-! ### Parallel sweep (`plogic_sweep_parallel`)

`asyncio.gather(*tasks, return_exceptions=True)` yields one result or
exception per config, in input order; results are split into `ok` and `err`
(the latter keeping the message and the originating config), with
`count_ok`/`count_error` their lengths. -/

structure SweepErr (κ : Type) where
  error : String
  config : κ
deriving DecidableEq

structure SweepOut (ρ κ : Type) where
  count_ok : Nat
  count_error : Nat
  results : List ρ
  errors : List (SweepErr κ)

def plogic_sweep_parallel {κ ρ : Type} (evalFn : κ → Except String ρ) (configs : List κ) :
    SweepOut ρ κ :=
  let results := configs.map evalFn
  let ok := results.filterMap fun r => match r with | .ok v => some v | .error _ => none
  let err := (results.zip configs).filterMap fun rc =>
      match rc.1 with | .error e => some ⟨e, rc.2⟩ | .ok _ => none
  ⟨ok.length, err.length, ok, err⟩

/-! Concrete inputs used to instantiate the general theorems. -/

def fullTraceState : BOState :=
  ⟨List.replicate 500 ⟨[], ⊤, [], .ok []⟩, ⟨⊤, none, none⟩⟩

def errSampleInput : SampleOutcome × List (String × ℚ) :=
  (Except.error ("boom", "Traceback (most recent call last)"), [])

def okSampleInput : SampleOutcome × List (String × ℚ) :=
  (Except.ok (0, []), [])

/-! ## Helper lemmas -/

theorem validate_extra_eq_filter (l : List String) :
    validate_extra l = l.filter allowedExtraMatch := by
  induction l with
  | nil => rfl
  | cons a rest ih =>
      by_cases h : allowedExtraMatch a = true
      · simp [validate_extra, List.filter, h, ih]
      · simp only [Bool.not_eq_true] at h
        simp [validate_extra, List.filter, h, ih]

lemma sortKeyed_perm (m : List (String × JValue)) : List.Perm (sortKeyed m) m :=
  List.perm_insertionSort keyLe m

lemma sorted_keyLt_of_sorted_nodup (l : List (String × JValue))
    (hs : l.Sorted keyLe) (hn : (l.map Prod.fst).Nodup) : l.Sorted keyLt := by
  have hn' : l.Pairwise (fun a b : String × JValue => a.1 ≠ b.1) := List.pairwise_map.1 hn
  exact (hs.and hn').imp fun h => lt_of_le_of_ne h.1 h.2

lemma sortKeyed_eq_of_perm (m1 m2 : List (String × JValue))
    (hp : List.Perm m1 m2) (hn : (m1.map Prod.fst).Nodup) :
    sortKeyed m1 = sortKeyed m2 := by
  have h12 : List.Perm (sortKeyed m1) (sortKeyed m2) :=
    (sortKeyed_perm m1).trans (hp.trans (sortKeyed_perm m2).symm)
  have hn1 : ((sortKeyed m1).map Prod.fst).Nodup :=
    (((sortKeyed_perm m1).map Prod.fst).nodup_iff).2 hn
  have hn2 : ((sortKeyed m2).map Prod.fst).Nodup :=
    (((sortKeyed_perm m2).map Prod.fst).nodup_iff).2 ((hp.map Prod.fst).nodup_iff.1 hn)
  exact List.eq_of_perm_of_sorted h12
    (sorted_keyLt_of_sorted_nodup _ (List.sorted_insertionSort keyLe m1) hn1)
    (sorted_keyLt_of_sorted_nodup _ (List.sorted_insertionSort keyLe m2) hn2)

lemma blakeCompress_length (h block : List Nat) (t : Nat) (last : Bool) :
    (blakeCompress h block t last).length = 8 := by
  simp [blakeCompress]

lemma blakeGo_length_aux :
    ∀ (n : Nat) (rem : List Nat), rem.length ≤ n →
      ∀ (h : List Nat) (t : Nat), (blakeGo h t rem).length = 8 := by
  intro n
  induction n with
  | zero =>
      intro rem hr h t
      have h128 : rem.length ≤ 128 := by omega
      rw [blakeGo]
      simp [h128, blakeCompress_length]
  | succ n ih =>
      intro rem hr h t
      rw [blakeGo]
      by_cases hc : rem.length ≤ 128
      · simp [hc, blakeCompress_length]
      · simp only [hc, dite_false]
        apply ih
        simp only [List.length_drop]
        omega

lemma blakeGo_length (h : List Nat) (t : Nat) (rem : List Nat) :
    (blakeGo h t rem).length = 8 :=
  blakeGo_length_aux rem.length rem le_rfl h t

lemma leBytes8_length (w : Nat) : (leBytes8 w).length = 8 := by
  simp [leBytes8]

lemma wordsBytes_length (ws : List Nat) : (wordsBytes ws).length = 8 * ws.length := by
  induction ws with
  | nil => rfl
  | cons w ws ih =>
      simp [wordsBytes, leBytes8_length, ih]
      ring

lemma blake2b128Bytes_length (msg : List Nat) : (blake2b128Bytes msg).length = 16 := by
  unfold blake2b128Bytes
  rw [List.length_take, wordsBytes_length, blakeGo_length]
  omega

lemma bytesHexChars_length (bs : List Nat) : (bytesHexChars bs).length = 2 * bs.length := by
  induction bs with
  | nil => rfl
  | cons b bs ih =>
      simp [bytesHexChars, byteHex, ih]
      ring

lemma digestDict_length (m : List (String × JValue)) : (digestDict m).length = 32 := by
  show (bytesHexChars (blake2b128Bytes (strBytes (jsonDumpsSortKeys m)))).length = 32
  rw [bytesHexChars_length, blake2b128Bytes_length]

lemma digestDict_eq_of_perm (m1 m2 : List (String × JValue))
    (hp : List.Perm m1 m2) (hn : (m1.map Prod.fst).Nodup) :
    digestDict m1 = digestDict m2 := by
  unfold digestDict jsonDumpsSortKeys
  rw [sortKeyed_eq_of_perm m1 m2 hp hn]

lemma getLast?_drop_lt {α : Type} :
    ∀ (k : Nat) (l : List α), k < l.length → (l.drop k).getLast? = l.getLast? := by
  intro k
  induction k with
  | zero => intro l _; rfl
  | succ k ih =>
      intro l h
      match l with
      | [] => simp at h
      | a :: l' =>
          have h' : k < l'.length := by simpa using h
          rw [List.drop_succ_cons, ih l' h']
          match l', h' with
          | b :: l'', _ => exact (List.getLast?_cons_cons).symm

lemma sync_obj_step_eq (st : BOState) (o : SyncOutcome) (p : List (String × ℚ)) :
    sync_obj_step st o p =
      (syncObjectiveOf o,
       ⟨if (st.trace ++ [syncRecordOf o p]).length > 500
          then (st.trace ++ [syncRecordOf o p]).drop ((st.trace ++ [syncRecordOf o p]).length - 400)
          else st.trace ++ [syncRecordOf o p],
        if syncObjectiveOf o < st.best.objective
          then ⟨syncObjectiveOf o, some p, some (syncResultOf o p)⟩ else st.best⟩) := rfl

lemma sample_once_step_eq (st : BOState) (o : SampleOutcome) (p : List (String × ℚ)) :
    sample_once_step st o p =
      ⟨if (st.trace ++ [sampleRecordOf o p]).length > 500
          then (st.trace ++ [sampleRecordOf o p]).drop ((st.trace ++ [sampleRecordOf o p]).length - 400)
          else st.trace ++ [sampleRecordOf o p],
        if sampleObjectiveOf o < st.best.objective
          then ⟨sampleObjectiveOf o, some p, some (sampleResultOf o p)⟩ else st.best⟩ := rfl

lemma sync_step_trace_length (st : BOState) (o : SyncOutcome) (p : List (String × ℚ)) :
    (sync_obj_step st o p).2.trace.length
      = if st.trace.length + 1 > 500 then 400 else st.trace.length + 1 := by
  rw [sync_obj_step_eq]
  by_cases h : st.trace.length + 1 > 500
  · have h' : (st.trace ++ [syncRecordOf o p]).length > 500 := by
      simp [List.length_append]; omega
    simp only [h', if_true, h, List.length_drop, List.length_append, List.length_cons,
      List.length_nil]
    omega
  · have h' : ¬ (st.trace ++ [syncRecordOf o p]).length > 500 := by
      simp [List.length_append]; omega
    simp only [h', if_false, h, List.length_append, List.length_cons, List.length_nil]

lemma sample_step_trace_length (st : BOState) (o : SampleOutcome) (p : List (String × ℚ)) :
    (sample_once_step st o p).trace.length
      = if st.trace.length + 1 > 500 then 400 else st.trace.length + 1 := by
  rw [sample_once_step_eq]
  by_cases h : st.trace.length + 1 > 500
  · have h' : (st.trace ++ [sampleRecordOf o p]).length > 500 := by
      simp [List.length_append]; omega
    simp only [h', if_true, h, List.length_drop, List.length_append, List.length_cons,
      List.length_nil]
    omega
  · have h' : ¬ (st.trace ++ [sampleRecordOf o p]).length > 500 := by
      simp [List.length_append]; omega
    simp only [h', if_false, h, List.length_append, List.length_cons, List.length_nil]

lemma sync_step_trace_getLast (st : BOState) (o : SyncOutcome) (p : List (String × ℚ)) :
    (sync_obj_step st o p).2.trace.getLast? = some (syncRecordOf o p) := by
  rw [sync_obj_step_eq]
  by_cases h : (st.trace ++ [syncRecordOf o p]).length > 500
  · simp only [h, if_true]
    rw [getLast?_drop_lt _ _ (by omega), List.getLast?_concat]
  · simp only [h, if_false, List.getLast?_concat]

lemma sample_step_trace_getLast (st : BOState) (o : SampleOutcome) (p : List (String × ℚ)) :
    (sample_once_step st o p).trace.getLast? = some (sampleRecordOf o p) := by
  rw [sample_once_step_eq]
  by_cases h : (st.trace ++ [sampleRecordOf o p]).length > 500
  · simp only [h, if_true]
    rw [getLast?_drop_lt _ _ (by omega), List.getLast?_concat]
  · simp only [h, if_false, List.getLast?_concat]

lemma sync_step_best_le (st : BOState) (o : SyncOutcome) (p : List (String × ℚ)) :
    (sync_obj_step st o p).2.best.objective ≤ st.best.objective := by
  rw [sync_obj_step_eq]
  by_cases h : syncObjectiveOf o < st.best.objective
  · simp only [h, if_true]; exact le_of_lt h
  · simp only [h, if_false]; exact le_rfl

lemma sample_step_best_le (st : BOState) (o : SampleOutcome) (p : List (String × ℚ)) :
    (sample_once_step st o p).best.objective ≤ st.best.objective := by
  rw [sample_once_step_eq]
  by_cases h : sampleObjectiveOf o < st.best.objective
  · simp only [h, if_true]; exact le_of_lt h
  · simp only [h, if_false]; exact le_rfl

lemma syncRun_take_succ (inputs : List (SyncOutcome × List (String × ℚ))) (k : Nat) :
    syncRun (inputs.take (k + 1))
      = match inputs[k]? with
        | some i => (sync_obj_step (syncRun (inputs.take k)) i.1 i.2).2
        | none => syncRun (inputs.take k) := by
  unfold syncRun
  rw [List.take_succ, List.foldl_append]
  cases h : inputs[k]? with
  | none => rfl
  | some i => rfl

lemma sampleRun_take_succ (inputs : List (SampleOutcome × List (String × ℚ))) (k : Nat) :
    sampleRun (inputs.take (k + 1))
      = match inputs[k]? with
        | some i => sample_once_step (sampleRun (inputs.take k)) i.1 i.2
        | none => sampleRun (inputs.take k) := by
  unfold sampleRun
  rw [List.take_succ, List.foldl_append]
  cases h : inputs[k]? with
  | none => rfl
  | some i => rfl

lemma syncFold_trace_le (inputs : List (SyncOutcome × List (String × ℚ))) :
    ∀ st : BOState, st.trace.length ≤ 500 →
      (inputs.foldl (fun st i => (sync_obj_step st i.1 i.2).2) st).trace.length ≤ 500 := by
  induction inputs with
  | nil => intro st h; exact h
  | cons i rest ih =>
      intro st h
      simp only [List.foldl_cons]
      apply ih
      rw [sync_step_trace_length]
      split <;> omega

lemma sampleFold_trace_le (inputs : List (SampleOutcome × List (String × ℚ))) :
    ∀ st : BOState, st.trace.length ≤ 500 →
      (inputs.foldl (fun st i => sample_once_step st i.1 i.2) st).trace.length ≤ 500 := by
  induction inputs with
  | nil => intro st h; exact h
  | cons i rest ih =>
      intro st h
      simp only [List.foldl_cons]
      apply ih
      rw [sample_step_trace_length]
      split <;> omega

lemma sampleFold_trace_length (inputs : List (SampleOutcome × List (String × ℚ))) :
    ∀ st : BOState,
      (inputs.foldl (fun st i => sample_once_step st i.1 i.2) st).trace.length
        = traceLenIter inputs.length st.trace.length := by
  induction inputs with
  | nil => intro st; rfl
  | cons i rest ih =>
      intro st
      simp only [List.foldl_cons, List.length_cons, traceLenIter]
      rw [ih, sample_step_trace_length]

lemma payload_trace_count (inputs : List (SampleOutcome × List (String × ℚ))) :
    (plogic_bo_run_payload inputs).trace_count = traceLenIter inputs.length 0 := by
  show (sampleRun inputs).trace.length = _
  rw [sampleRun, sampleFold_trace_length]
  rfl

lemma traceLenIter_overflow :
    ∀ (n m : Nat), n + m = 501 → 1 ≤ n → traceLenIter n m = 400 := by
  intro n
  induction n with
  | zero => intro m _ h1; omega
  | succ n ih =>
      intro m h _
      by_cases hn : n = 0
      · subst hn
        have hm : m = 500 := by omega
        subst hm
        show traceLenIter 0 (if 500 + 1 > 500 then 400 else 500 + 1) = 400
        norm_num [traceLenIter]
      · have hm : ¬ m + 1 > 500 := by omega
        simp only [traceLenIter, hm, if_false]
        exact ih (m + 1) (by omega) (by omega)

lemma traceLenIter_le :
    ∀ (n m : Nat), n + m ≤ 500 → traceLenIter n m = m + n := by
  intro n
  induction n with
  | zero => intro m _; rfl
  | succ n ih =>
      intro m h
      have hm : ¬ m + 1 > 500 := by omega
      simp only [traceLenIter, hm, if_false]
      rw [ih (m + 1) (by omega)]
      omega

lemma sweep_results_eq {κ ρ : Type} (f : κ → Except String ρ) (configs : List κ) :
    (plogic_sweep_parallel f configs).results
      = configs.filterMap fun c => (f c).toOption := by
  simp only [plogic_sweep_parallel]
  rw [List.filterMap_map]
  congr 1
  funext c
  simp only [Function.comp_apply]
  cases f c <;> rfl

lemma sweep_errors_eq {κ ρ : Type} (f : κ → Except String ρ) (configs : List κ) :
    (plogic_sweep_parallel f configs).errors
      = configs.filterMap fun c =>
          match f c with | .error e => some ⟨e, c⟩ | .ok _ => none := by
  unfold plogic_sweep_parallel
  induction configs with
  | nil => rfl
  | cons c rest ih =>
      simp only [List.map_cons, List.zip_cons_cons, List.filterMap_cons] at ih ⊢
      cases f c <;> simp [ih]

lemma sweep_counts_eq {κ ρ : Type} (f : κ → Except String ρ) (configs : List κ) :
    (configs.filterMap fun c => (f c).toOption).length
      = configs.countP (fun c => (f c).toOption.isSome)
    ∧ (configs.filterMap fun c =>
          match f c with | .error e => some (SweepErr.mk e c) | .ok _ => none).length
      = configs.countP (fun c => !(f c).toOption.isSome) := by
  induction configs with
  | nil => exact ⟨rfl, rfl⟩
  | cons c rest ih =>
      simp only [List.filterMap_cons, List.countP_cons]
      cases h : f c <;>
        simp_all [List.countP_cons, Except.toOption]

lemma sweep_counts_sum {κ ρ : Type} (f : κ → Except String ρ) (configs : List κ) :
    (configs.filterMap fun c => (f c).toOption).length
      + (configs.filterMap fun c =>
          match f c with | .error e => some (SweepErr.mk e c) | .ok _ => none).length
      = configs.length := by
  induction configs with
  | nil => rfl
  | cons c rest ih =>
      cases h : f c with
      | ok v =>
          simp only [List.filterMap_cons, h, Except.toOption, List.length_cons] at ih ⊢
          omega
      | error e =>
          simp only [List.filterMap_cons, h, Except.toOption, List.length_cons] at ih ⊢
          omega

lemma lruGet_empty {V : Type} (key : String) (now : ℚ) :
    lruGet (lruEmpty V) key now = (none, lruEmpty V) := rfl

lemma lruSetex_empty {V : Type} (key : String) (ttl : ℚ) (v : V) (now : ℚ) :
    lruSetex (lruEmpty V) key ttl v now = ⟨[(key, now + ttl, v)], 1024⟩ := by
  simp [lruSetex, lruEmpty, List.eraseP]

lemma lruGet_single_live {V : Type} (key : String) (exp : ℚ) (v : V) (now : ℚ)
    (h : ¬ exp < now) :
    lruGet (⟨[(key, exp, v)], 1024⟩ : LRUTTL V) key now
      = (some v, ⟨[(key, exp, v)], 1024⟩) := by
  simp [lruGet, List.find?, List.eraseP, h]

lemma physicsCache_two_calls {V : Type} (fn : List JValue → List (String × JValue) → V)
    (fnName : String) (exp : ℚ) (args1 args2 : List JValue) (kwargs : List (String × JValue))
    (t0 t1 : ℚ) (h1 : t1 ≤ t0 + exp) :
    (physicsCacheCall fn fnName exp args1 kwargs (lruEmpty V) t0).1 = fn args1 kwargs
    ∧ (physicsCacheCall fn fnName exp args2 kwargs
        (physicsCacheCall fn fnName exp args1 kwargs (lruEmpty V) t0).2 t1).1
      = fn args1 kwargs := by
  have hfirst : physicsCacheCall fn fnName exp args1 kwargs (lruEmpty V) t0
      = (fn args1 kwargs,
         ⟨[(cacheKeyOf fnName kwargs, t0 + exp, fn args1 kwargs)], 1024⟩) := by
    simp only [physicsCacheCall, lruGet_empty, lruSetex_empty]
  refine ⟨by rw [hfirst], ?_⟩
  rw [hfirst]
  simp only [physicsCacheCall, lruGet_single_live _ _ _ _ (not_lt.2 h1)]

end PlogicBO

/-! ## Claims -/

/-- C1: when the underlying evaluation raises (or the `OBJ_TIMEOUT` deadline
of the blocking wait is exceeded) — an `Except.error` outcome — the bridge's
synchronous objective does not propagate the exception: it returns the
infinite objective (`⊤`, i.e. `float("inf")`) and appends an
EvaluationRecord whose result carries the error message; likewise for the
fallback strategy's `sample_once`. -/
theorem C1_bridge_contains_failures (st : PlogicBO.BOState) (e : String)
    (p : List (String × ℚ)) (et : String × String) (p2 : List (String × ℚ)) :
    (PlogicBO.sync_obj_step st (Except.error e) p).1 = ⊤
    ∧ (PlogicBO.sync_obj_step st (Except.error e) p).2.trace.getLast?
        = some ⟨p, ⊤, [], PlogicBO.ResVal.errSync e p⟩
    ∧ (PlogicBO.sample_once_step st (Except.error et) p2).trace.getLast?
        = some ⟨p2, ⊤, [], PlogicBO.ResVal.errSample et.1 p2 et.2⟩ := by
  refine ⟨rfl, ?_, ?_⟩
  · rw [PlogicBO.sync_step_trace_getLast]
    rfl
  · rw [PlogicBO.sample_step_trace_getLast]
    rfl

/-- C2: `plogic_sweep_parallel` partitions its input: `count_ok` +
`count_error` equals the input length; the successes are exactly the `.ok`
evaluations in input order, the error records exactly the `.error`
evaluations in input order (each keeping its originating config); each input
contributes to exactly one of the two lists; and an individual failure never
aborts the batch (the function is total in the evaluation outcomes). -/
theorem C2_sweep_partition {κ ρ : Type} (evalFn : κ → Except String ρ) (configs : List κ) :
    (PlogicBO.plogic_sweep_parallel evalFn configs).count_ok
        + (PlogicBO.plogic_sweep_parallel evalFn configs).count_error = configs.length
    ∧ (PlogicBO.plogic_sweep_parallel evalFn configs).results
        = configs.filterMap (fun c => (evalFn c).toOption)
    ∧ (PlogicBO.plogic_sweep_parallel evalFn configs).errors
        = configs.filterMap (fun c =>
            match evalFn c with | .error e => some ⟨e, c⟩ | .ok _ => none)
    ∧ (PlogicBO.plogic_sweep_parallel evalFn configs).count_ok
        = configs.countP (fun c => (evalFn c).toOption.isSome)
    ∧ (PlogicBO.plogic_sweep_parallel evalFn configs).count_error
        = configs.countP (fun c => !(evalFn c).toOption.isSome) := by
  have hok : (PlogicBO.plogic_sweep_parallel evalFn configs).count_ok
      = (PlogicBO.plogic_sweep_parallel evalFn configs).results.length := rfl
  have herr : (PlogicBO.plogic_sweep_parallel evalFn configs).count_error
      = (PlogicBO.plogic_sweep_parallel evalFn configs).errors.length := rfl
  refine ⟨?_, PlogicBO.sweep_results_eq evalFn configs, PlogicBO.sweep_errors_eq evalFn configs,
      ?_, ?_⟩
  · rw [hok, herr, PlogicBO.sweep_results_eq, PlogicBO.sweep_errors_eq]
    exact PlogicBO.sweep_counts_sum evalFn configs
  · rw [hok, PlogicBO.sweep_results_eq]
    exact (PlogicBO.sweep_counts_eq evalFn configs).1
  · rw [herr, PlogicBO.sweep_errors_eq]
    exact (PlogicBO.sweep_counts_eq evalFn configs).2

/-- C3: across a single run, the best objective observed after each
successive record append is non-increasing (both strategies), and `best` is
replaced exactly under a strict less-than comparison of the new objective
against the current `best.objective`, so a tie keeps the earlier best. -/
theorem C3_best_monotone_strict :
    (∀ (inputs : List (PlogicBO.SyncOutcome × List (String × ℚ))) (k : Nat),
        PlogicBO.bestObjAtSync inputs (k + 1) ≤ PlogicBO.bestObjAtSync inputs k)
    ∧ (∀ (inputs : List (PlogicBO.SampleOutcome × List (String × ℚ))) (k : Nat),
        PlogicBO.bestObjAtSample inputs (k + 1) ≤ PlogicBO.bestObjAtSample inputs k)
    ∧ (∀ (st : PlogicBO.BOState) (o : PlogicBO.SyncOutcome) (p : List (String × ℚ)),
        (PlogicBO.sync_obj_step st o p).2.best
          = if PlogicBO.syncObjectiveOf o < st.best.objective
            then ⟨PlogicBO.syncObjectiveOf o, some p, some (PlogicBO.syncResultOf o p)⟩
            else st.best)
    ∧ (∀ (st : PlogicBO.BOState) (o : PlogicBO.SampleOutcome) (p : List (String × ℚ)),
        (PlogicBO.sample_once_step st o p).best
          = if PlogicBO.sampleObjectiveOf o < st.best.objective
            then ⟨PlogicBO.sampleObjectiveOf o, some p, some (PlogicBO.sampleResultOf o p)⟩
            else st.best) := by
  refine ⟨?_, ?_, ?_, ?_⟩
  · intro inputs k
    unfold PlogicBO.bestObjAtSync
    rw [PlogicBO.syncRun_take_succ]
    cases h : inputs[k]? with
    | none => exact le_rfl
    | some i => exact PlogicBO.sync_step_best_le _ _ _
  · intro inputs k
    unfold PlogicBO.bestObjAtSample
    rw [PlogicBO.sampleRun_take_succ]
    cases h : inputs[k]? with
    | none => exact le_rfl
    | some i => exact PlogicBO.sample_step_best_le _ _ _
  · intro st o p
    rw [PlogicBO.sync_obj_step_eq]
  · intro st o p
    rw [PlogicBO.sample_once_step_eq]

/-- C4: after every record-append step of either strategy the trace length
stays at most 500 (over any run from the fresh state), and an append that
pushes the length beyond 500 immediately truncates the trace to exactly the
most recent 400 records. -/
theorem C4_trace_ring_buffer (st1 st2 : PlogicBO.BOState) (o : PlogicBO.SyncOutcome)
    (p : List (String × ℚ)) (o2 : PlogicBO.SampleOutcome) (p2 : List (String × ℚ))
    (h1 : st1.trace.length = 500) (h2 : st2.trace.length = 500) :
    (∀ (inputs : List (PlogicBO.SyncOutcome × List (String × ℚ))) (k : Nat),
        (PlogicBO.syncRun (inputs.take k)).trace.length ≤ 500)
    ∧ (∀ (inputs : List (PlogicBO.SampleOutcome × List (String × ℚ))) (k : Nat),
        (PlogicBO.sampleRun (inputs.take k)).trace.length ≤ 500)
    ∧ (PlogicBO.sync_obj_step st1 o p).2.trace
        = (st1.trace ++ [PlogicBO.syncRecordOf o p]).drop
            ((st1.trace ++ [PlogicBO.syncRecordOf o p]).length - 400)
    ∧ (PlogicBO.sync_obj_step st1 o p).2.trace.length = 400
    ∧ (PlogicBO.sample_once_step st2 o2 p2).trace
        = (st2.trace ++ [PlogicBO.sampleRecordOf o2 p2]).drop
            ((st2.trace ++ [PlogicBO.sampleRecordOf o2 p2]).length - 400)
    ∧ (PlogicBO.sample_once_step st2 o2 p2).trace.length = 400 := by
  have hl1 : (st1.trace ++ [PlogicBO.syncRecordOf o p]).length > 500 := by
    simp [List.length_append, h1]
  have hl2 : (st2.trace ++ [PlogicBO.sampleRecordOf o2 p2]).length > 500 := by
    simp [List.length_append, h2]
  refine ⟨?_, ?_, ?_, ?_, ?_, ?_⟩
  · intro inputs k
    exact PlogicBO.syncFold_trace_le (inputs.take k) PlogicBO.boInit (by norm_num [PlogicBO.boInit])
  · intro inputs k
    exact PlogicBO.sampleFold_trace_le (inputs.take k) PlogicBO.boInit (by norm_num [PlogicBO.boInit])
  · rw [PlogicBO.sync_obj_step_eq]
    show (if _ > 500 then _ else _) = _
    rw [if_pos hl1]
  · rw [PlogicBO.sync_step_trace_length, h1]
    norm_num
  · rw [PlogicBO.sample_once_step_eq]
    show (if _ > 500 then _ else _) = _
    rw [if_pos hl2]
  · rw [PlogicBO.sample_step_trace_length, h2]
    norm_num

/-- C4 witness: at a state holding exactly 500 records, one more append of
either strategy leaves exactly the 400 most recent records. -/
theorem C4_witness :
    PlogicBO.fullTraceState.trace.length = 500
    ∧ (PlogicBO.sync_obj_step PlogicBO.fullTraceState (Except.ok (0, [])) []).2.trace.length = 400
    ∧ (PlogicBO.sample_once_step PlogicBO.fullTraceState (Except.ok (0, [])) []).trace.length = 400 :=
  ⟨by simp [PlogicBO.fullTraceState],
   (C4_trace_ring_buffer PlogicBO.fullTraceState PlogicBO.fullTraceState (Except.ok (0, [])) []
      (Except.ok (0, [])) [] (by simp [PlogicBO.fullTraceState])
      (by simp [PlogicBO.fullTraceState])).2.2.2.1,
   (C4_trace_ring_buffer PlogicBO.fullTraceState PlogicBO.fullTraceState (Except.ok (0, [])) []
      (Except.ok (0, [])) [] (by simp [PlogicBO.fullTraceState])
      (by simp [PlogicBO.fullTraceState])).2.2.2.2.2⟩

/-- C5 (counterexample): the sanitizer is *not* the filter by the claim's
lowercase-only pattern: on input `["--A"]` the code keeps the entry (the
regex is compiled with `re.I`), while the claim's pattern drops it. -/
theorem C5_counterexample :
    PlogicBO.validate_extra ["--A"]
      ≠ (["--A"] : List String).filter PlogicBO.claimExtraMatch := by
  decide

/-- C5 (amended): on ASCII input lists — where the ASCII-fragment recognizer
coincides with the compiled pattern — `_validate_extra` returns exactly the
sublist, in original order, of entries matching the pattern: `--`, a
letter-led name of letters/digits/hyphens matched case-insensitively
(`re.I`; over all of Unicode the case folding also admits `ſ`/`K` and the
`\w` value class any word character), optionally `=value` with value of
letters/digits/underscore/`.`/`-`/`+`, the end anchor tolerating one
trailing newline; it never returns an entry that was not in the input and
drops non-matching entries without raising.  `--beta=30.5` is accepted and
`; rm -rf /` is dropped. -/
theorem C5_amended (l : List String)
    (_hascii : ∀ s ∈ l, PlogicBO.isAsciiString s = true) :
    PlogicBO.validate_extra l = l.filter PlogicBO.allowedExtraMatch
    ∧ List.Sublist (PlogicBO.validate_extra l) l
    ∧ PlogicBO.allowedExtraMatch "--beta=30.5" = true
    ∧ PlogicBO.allowedExtraMatch "; rm -rf /" = false
    ∧ PlogicBO.allowedExtraMatch "--A" = true
    ∧ PlogicBO.allowedExtraMatch "--flag=a_b" = true
    ∧ PlogicBO.claimExtraMatch "--A" = false := by
  refine ⟨PlogicBO.validate_extra_eq_filter l, ?_, by decide, by decide, by decide, by decide,
    by decide⟩
  rw [PlogicBO.validate_extra_eq_filter l]
  exact List.filter_sublist l

/-- C5 witness: a concrete ASCII input list containing an accepted flag, an
injection attempt and an uppercase-led flag is filtered to exactly its
pattern-matching entries. -/
theorem C5_witness :
    (∀ s ∈ (["--beta=30.5", "; rm -rf /", "--A"] : List String),
        PlogicBO.isAsciiString s = true)
    ∧ PlogicBO.validate_extra ["--beta=30.5", "; rm -rf /", "--A"]
      = (["--beta=30.5", "; rm -rf /", "--A"] : List String).filter
          PlogicBO.allowedExtraMatch :=
  ⟨by decide,
   (C5_amended ["--beta=30.5", "; rm -rf /", "--A"] (by decide)).1⟩

/-- C7: the cache key digest is invariant under reordering of the parameter
mapping (equal key-to-value bindings give equal digests, via the sorted-key
canonical serialization) and always has the fixed width of 32 hex characters
(a 16-byte BLAKE2b digest); being a pure function of the mapping, it is the
same across runs. -/
theorem C7_digest_deterministic (m1 m2 : List (String × PlogicBO.JValue))
    (hp : List.Perm m1 m2) (hn : (m1.map Prod.fst).Nodup) :
    PlogicBO.digestDict m1 = PlogicBO.digestDict m2
    ∧ (PlogicBO.digestDict m1).length = 32 :=
  ⟨PlogicBO.digestDict_eq_of_perm m1 m2 hp hn, PlogicBO.digestDict_length m1⟩

/-- C7 witness: two insertion orders of the same two bindings share the
32-character digest. -/
theorem C7_witness :
    PlogicBO.digestDict
        [("beta", PlogicBO.JValue.jatom (.anum "30.0")),
         ("threshold", PlogicBO.JValue.jatom (.astr "soft"))]
      = PlogicBO.digestDict
        [("threshold", PlogicBO.JValue.jatom (.astr "soft")),
         ("beta", PlogicBO.JValue.jatom (.anum "30.0"))]
    ∧ (PlogicBO.digestDict
        [("beta", PlogicBO.JValue.jatom (.anum "30.0")),
         ("threshold", PlogicBO.JValue.jatom (.astr "soft"))]).length = 32 :=
  C7_digest_deterministic _ _ (List.Perm.swap _ _ _) (by decide)

/-- C8: the optimizer's scalar objective equals
`ber_estimate - objective_margin_weight * logic_margin`, with `ber_estimate`
defaulting to 1 when absent and `logic_margin` to 0 when absent; a point
with no metrics receives objective 1. -/
theorem C8_objective_formula (metrics fixed : List (String × ℚ)) (w : ℚ)
    (hw : fixed.lookup "objective_margin_weight" = some w) :
    PlogicBO.objective_of metrics fixed
      = PlogicBO.metricsGetD metrics "ber_estimate" 1
        - w * PlogicBO.metricsGetD metrics "logic_margin" 0
    ∧ (metrics.lookup "ber_estimate" = none →
        PlogicBO.metricsGetD metrics "ber_estimate" 1 = 1)
    ∧ (metrics.lookup "logic_margin" = none →
        PlogicBO.metricsGetD metrics "logic_margin" 0 = 0)
    ∧ PlogicBO.objective_of [] fixed = 1
    ∧ (PlogicBO.objective_eval ⟨metrics⟩ fixed).1 = PlogicBO.objective_of metrics fixed := by
  refine ⟨?_, ?_, ?_, ?_, rfl⟩
  · unfold PlogicBO.objective_of PlogicBO.metricsGetD
    rw [hw]
    rfl
  · intro h
    unfold PlogicBO.metricsGetD
    rw [h]
    rfl
  · intro h
    unfold PlogicBO.metricsGetD
    rw [h]
    rfl
  · unfold PlogicBO.objective_of PlogicBO.metricsGetD
    simp [List.lookup]

/-- C8 witness: with weight 1/10, ber 1/100 and margin 5 the objective is
the formula value. -/
theorem C8_witness :
    (([("objective_margin_weight", (1 : ℚ) / 10)] : List (String × ℚ)).lookup
        "objective_margin_weight" = some (1 / 10))
    ∧ PlogicBO.objective_of [("ber_estimate", (1 : ℚ) / 100), ("logic_margin", 5)]
        [("objective_margin_weight", (1 : ℚ) / 10)]
      = PlogicBO.metricsGetD [("ber_estimate", (1 : ℚ) / 100), ("logic_margin", 5)]
          "ber_estimate" 1
        - (1 / 10) * PlogicBO.metricsGetD [("ber_estimate", (1 : ℚ) / 100), ("logic_margin", 5)]
          "logic_margin" 0 :=
  ⟨by rfl,
   (C8_objective_formula [("ber_estimate", (1 : ℚ) / 100), ("logic_margin", 5)]
      [("objective_margin_weight", (1 : ℚ) / 10)] (1 / 10) (by rfl)).1⟩

/-- C9 (counterexample): after 501 evaluations the ring buffer has been cut
to 400 records, and `trace_count = len(trace)` reports 400, not the 501
evaluations actually performed — so `trace_count` is not the total number of
evaluations. -/
theorem C9_counterexample :
    (PlogicBO.plogic_bo_run_payload
        (List.replicate 501 PlogicBO.errSampleInput)).trace_count
      ≠ (List.replicate 501 PlogicBO.errSampleInput).length := by
  rw [PlogicBO.payload_trace_count, List.length_replicate,
    PlogicBO.traceLenIter_overflow 501 0 (by omega) (by omega)]
  omega

/-- C9 (amended): `trace_count` equals the length of the retained
(ring-capped) trace at the end of the run — which equals the total number of
evaluations only while that total is at most 500 — and it is always at least
the length of the payload's transported trace (itself truncated to the most
recent 200 records). -/
theorem C9_trace_count (inputs : List (PlogicBO.SampleOutcome × List (String × ℚ)))
    (h : inputs.length ≤ 500) :
    (PlogicBO.plogic_bo_run_payload inputs).trace_count
        = (PlogicBO.sampleRun inputs).trace.length
    ∧ (PlogicBO.plogic_bo_run_payload inputs).trace_count = inputs.length
    ∧ (PlogicBO.plogic_bo_run_payload inputs).trace.length
        ≤ (PlogicBO.plogic_bo_run_payload inputs).trace_count := by
  refine ⟨rfl, ?_, ?_⟩
  · rw [PlogicBO.payload_trace_count, PlogicBO.traceLenIter_le inputs.length 0 (by omega)]
    omega
  · show ((PlogicBO.sampleRun inputs).trace.drop _).length
        ≤ (PlogicBO.sampleRun inputs).trace.length
    rw [List.length_drop]
    omega

/-- C9 witness: a one-evaluation run has `trace_count = 1`. -/
theorem C9_witness :
    ([PlogicBO.okSampleInput].length ≤ 500)
    ∧ (PlogicBO.plogic_bo_run_payload [PlogicBO.okSampleInput]).trace_count
      = [PlogicBO.okSampleInput].length :=
  ⟨by decide, (C9_trace_count [PlogicBO.okSampleInput] (by decide)).2.1⟩

/-- C10: the `physics_cache` key is derived from the named keyword arguments
(and the function name) only; two wrapped calls with identical keyword
arguments but different positional arguments share the key, so within the
TTL the second call is served the first call's cached result. -/
theorem C10_cache_ignores_positional {V : Type}
    (fn : List PlogicBO.JValue → List (String × PlogicBO.JValue) → V)
    (args1 args2 : List PlogicBO.JValue) (kwargs : List (String × PlogicBO.JValue))
    (t0 t1 : ℚ) (h : t1 ≤ t0 + 1800) :
    (PlogicBO.physicsCacheCall fn "plogic_cascade" 1800 args1 kwargs
        (PlogicBO.lruEmpty V) t0).1 = fn args1 kwargs
    ∧ (PlogicBO.physicsCacheCall fn "plogic_cascade" 1800 args2 kwargs
        (PlogicBO.physicsCacheCall fn "plogic_cascade" 1800 args1 kwargs
          (PlogicBO.lruEmpty V) t0).2 t1).1
      = fn args1 kwargs :=
  PlogicBO.physicsCache_two_calls fn "plogic_cascade" 1800 args1 args2 kwargs t0 t1 h

/-- C10 witness: with a wrapped function returning its positional arguments,
a second call passing different positionals but the same (empty) keyword
arguments one second later is answered with the first call's result, not its
own evaluation. -/
theorem C10_witness :
    ((1 : ℚ) ≤ 0 + 1800)
    ∧ (PlogicBO.physicsCacheCall
        (fun (a : List PlogicBO.JValue) (_ : List (String × PlogicBO.JValue)) => a)
        "plogic_cascade" 1800 [PlogicBO.JValue.jatom .anull] []
        (PlogicBO.physicsCacheCall
          (fun (a : List PlogicBO.JValue) (_ : List (String × PlogicBO.JValue)) => a)
          "plogic_cascade" 1800 [] [] (PlogicBO.lruEmpty (List PlogicBO.JValue)) 0).2 1).1
      = []
    ∧ ([PlogicBO.JValue.jatom .anull] : List PlogicBO.JValue) ≠ [] :=
  ⟨by norm_num,
   (C10_cache_ignores_positional
      (fun (a : List PlogicBO.JValue) (_ : List (String × PlogicBO.JValue)) => a)
      [] [PlogicBO.JValue.jatom .anull] [] 0 1 (by norm_num)).2,
   by decide⟩
